import Mathlib

/-!
Shallow embedding of `src/tps-ext.ts` (the pi-exts TPS extension).

Modelling choices:
* JavaScript numbers are modelled as `JSNum`: either an exact rational
  (`finite q`) or one of the non-finite values `nan`, `posInf`, `negInf`.
  Float rounding/overflow of arithmetic on finite values is not modelled:
  arithmetic on finite values is exact rational arithmetic.  Signed zero
  is not modelled (rationals have a single zero).
* JavaScript values (the opaque events fed to `aggregateUsage`) are the
  inductive `JSValue`; objects are association lists with first-match
  field lookup; reading a missing field yields `undefined`.
* `Number.prototype.toFixed` and the integer `toLocaleString` grouping
  are implemented exactly on rationals: `toFixed` extracts the sign, then
  — per ECMAScript — falls back to `ToString` (exponential notation) when
  the magnitude is at least `10^21`, and otherwise rounds the magnitude
  times `10^f` to the nearest integer with ties going up; `toLocaleString`
  is modelled as truncation toward zero followed by comma grouping of
  digits in threes (the en-US rendering used by the spec's examples).
  Every IEEE double of magnitude at least `10^21` is an integer, so the
  `ToString` fallback is modelled on the floored rational; it prints the
  exact decimal digits, which coincides with the engine's
  shortest-round-trip digits whenever the value is exactly representable
  (non-representable values are artifacts of the exact-rational
  idealization).
* The `agent_start` / `agent_end` handlers of `tpsExtension` are modelled
  as explicit state-passing functions over the single piece of state
  `agentStartMs : Option ℤ` (milliseconds).  The `agent_end` handler
  returns the new state together with the optional notification string
  passed to `ctx.ui.notify` (severity is always `"info"` in the source,
  so only the string is tracked).
-/

namespace TpsExt

/-- A JavaScript number: an exact rational or a non-finite value. -/
inductive JSNum where
  | finite : ℚ → JSNum
  | nan : JSNum
  | posInf : JSNum
  | negInf : JSNum

/-- A JavaScript value, as far as the extension inspects values. -/
inductive JSValue where
  | num : JSNum → JSValue
  | str : String → JSValue
  | boolean : Bool → JSValue
  | null : JSValue
  | undefined : JSValue
  | record : List (String × JSValue) → JSValue

/-- First-match field lookup in an object; a missing field reads as
`undefined` (JavaScript property access on objects). -/
def lookupField : List (String × JSValue) → String → JSValue
  | [], _ => JSValue.undefined
  | (k, v) :: rest, key => if k = key then v else lookupField rest key

/-- Property access `v[key]`: `undefined` on every non-object. -/
def jsGet : JSValue → String → JSValue
  | JSValue.record fs, key => lookupField fs key
  | _, _ => JSValue.undefined

/-- `isRecord` from the source: `typeof v === "object" && v !== null`. -/
def isRecord : JSValue → Bool
  | JSValue.record _ => true
  | _ => false

/-- `isAssistantMessage` from the source: a record whose `role` field is
the string literal `"assistant"` (strict equality). -/
def isAssistantMessage (message : JSValue) : Bool :=
  if isRecord message then
    match jsGet message "role" with
    | JSValue.str s => s = "assistant"
    | _ => false
  else false

/-- `readNumber` from the source: the value if it is a finite number,
otherwise `0`. -/
def readNumber : JSValue → ℚ
  | JSValue.num (JSNum.finite q) => q
  | _ => 0

/-- The `Usage` record of the source: five numeric counters. -/
structure Usage where
  input : ℚ
  output : ℚ
  cacheRead : ℚ
  cacheWrite : ℚ
  totalTokens : ℚ
deriving DecidableEq

/-- The zero-valued accumulator `aggregateUsage` starts from. -/
def usageZero : Usage :=
  { input := 0, output := 0, cacheRead := 0, cacheWrite := 0, totalTokens := 0 }

/-- Field-wise addition of usage counters. -/
def usageAdd (a b : Usage) : Usage :=
  { input := a.input + b.input
    output := a.output + b.output
    cacheRead := a.cacheRead + b.cacheRead
    cacheWrite := a.cacheWrite + b.cacheWrite
    totalTokens := a.totalTokens + b.totalTokens }

/-- The contribution one event adds to the accumulator inside the loop of
`aggregateUsage`: skipped events contribute the zero record. -/
def usageContrib (m : JSValue) : Usage :=
  if isAssistantMessage m then
    let usage := jsGet m "usage"
    if isRecord usage then
      { input := readNumber (jsGet usage "input")
        output := readNumber (jsGet usage "output")
        cacheRead := readNumber (jsGet usage "cacheRead")
        cacheWrite := readNumber (jsGet usage "cacheWrite")
        totalTokens := readNumber (jsGet usage "totalTokens") }
    else usageZero
  else usageZero

/-- The body of the `for` loop of `aggregateUsage`: each `continue`
leaves the accumulator unchanged, otherwise the five `+=` updates run. -/
def aggregateStep (acc : Usage) (m : JSValue) : Usage :=
  if isAssistantMessage m then
    let usage := jsGet m "usage"
    if isRecord usage then
      { input := acc.input + readNumber (jsGet usage "input")
        output := acc.output + readNumber (jsGet usage "output")
        cacheRead := acc.cacheRead + readNumber (jsGet usage "cacheRead")
        cacheWrite := acc.cacheWrite + readNumber (jsGet usage "cacheWrite")
        totalTokens := acc.totalTokens + readNumber (jsGet usage "totalTokens") }
    else acc
  else acc

/-- `aggregateUsage` from the source: fold the events through the mutable
accumulator (the `for` loop becomes a left fold). -/
def aggregateUsage (messages : List JSValue) : Usage :=
  messages.foldl aggregateStep usageZero

/-- The `Options` record of the source.  The two thresholds are
JavaScript numbers (modelled exactly as rationals); `precision` is the
digit count handed to `toFixed`. -/
structure Options where
  minOutputTokensToNotify : ℚ
  minSecondsToNotify : ℚ
  precision : ℕ
  showCache : Bool
  showTotals : Bool
deriving DecidableEq

/-- `DEFAULTS` from the source. -/
def DEFAULTS : Options :=
  { minOutputTokensToNotify := 1, minSecondsToNotify := 0, precision := 1
    showCache := true, showTotals := true }

/-- Decimal digits of `n`, least significant first (`fuel` bounds the
recursion; `fuel = n + 1` is always enough).  `0` renders as `['0']`. -/
def natDigitsLE : ℕ → ℕ → List Char
  | 0, _ => []
  | fuel + 1, n =>
    if n < 10 then [Nat.digitChar n]
    else Nat.digitChar (n % 10) :: natDigitsLE fuel (n / 10)

/-- Insert a comma after every third digit, working over the
least-significant-first digit list (`k` counts digits emitted in the
current group). -/
def groupLE : ℕ → List Char → List Char
  | _, [] => []
  | k, c :: cs =>
    if k = 3 then ',' :: c :: groupLE 1 cs else c :: groupLE (k + 1) cs

/-- `Math.trunc`: truncation toward zero. -/
def jsTrunc (q : ℚ) : ℤ :=
  if q < 0 then -⌊-q⌋ else ⌊q⌋

/-- `fmtInt` from the source: `Math.trunc(n).toLocaleString()`, with
`toLocaleString` modelled as the en-US rendering (comma-grouped
thousands) that the spec's examples use. -/
def fmtInt (n : ℚ) : String :=
  let t := jsTrunc n
  (if t < 0 then "-" else "") ++
    String.mk ((groupLE 0 (natDigitsLE (t.natAbs + 1) t.natAbs)).reverse)

/-- Least-significant-first digits of the rounded scaled magnitude used
by `toFixed`, padded with zeros so that at least `f + 1` digits exist
(`f` fractional digits plus at least one integer digit). -/
def toFixedDigits (f : ℕ) (n : ℕ) : List Char :=
  let ds := natDigitsLE (n + 1) n
  ds ++ List.replicate (f + 1 - ds.length) '0'

/-- Drop the leading `'0'` entries of a least-significant-first digit
list, i.e. strip the number's trailing decimal zeros. -/
def dropLeadZeros : List Char → List Char
  | [] => []
  | c :: cs => if c = '0' then dropLeadZeros cs else c :: cs

/-- ECMAScript `Number::toString` (radix 10) restricted to non-negative
integers with at least 22 digits — the only values `toFixed`'s
`x ≥ 10^21` fallback receives: with `s` the significant digits and `n`
the digit count (`n > 21`), the output is `s₀.s₁…e+(n−1)` (no point when
there is a single significant digit). -/
def jsToStringBig (N : ℕ) : String :=
  let dsLE := natDigitsLE (N + 1) N
  let n := dsLE.length
  match (dropLeadZeros dsLE).reverse with
  | [] => "0"
  | d :: rest =>
    String.mk [d] ++ (if rest = [] then "" else "." ++ String.mk rest) ++
      "e+" ++ String.mk ((natDigitsLE n (n - 1)).reverse)

/-- `Number.prototype.toFixed(f)`, ECMAScript semantics on exact
rationals: extract the sign; if the magnitude is at least `10^21` fall
back to `ToString` of the magnitude (exponential notation; the magnitude
is floored, see the header note); otherwise choose the integer `n`
minimising `|n / 10^f - |x||`, ties resolved upward
(`⌊|x|·10^f + 1/2⌋`), and render `n` with exactly `f` digits after the
decimal point (no point when `f = 0`). -/
def toFixed (f : ℕ) (x : ℚ) : String :=
  let sign := if x < 0 then "-" else ""
  let mag := if x < 0 then -x else x
  if (10 : ℚ) ^ 21 ≤ mag then
    sign ++ jsToStringBig ⌊mag⌋.toNat
  else
    let n : ℕ := (⌊mag * (10 : ℚ) ^ f + 1 / 2⌋).toNat
    let ds := toFixedDigits f n
    sign ++ String.mk ((ds.drop f).reverse) ++
      (if f = 0 then "" else "." ++ String.mk ((ds.take f).reverse))

/-- The characters strictly after the first `'.'`, if any. -/
def afterDot : List Char → Option (List Char)
  | [] => none
  | c :: cs => if c = '.' then some cs else afterDot cs

/-- The number of decimal places a rendered number shows: the count of
characters after the decimal point, or `none` when there is no point.
Stated from the spec's words ("rendered with `options.precision` decimal
places") to observe `toFixed`'s output. -/
def fracDigitCount (s : String) : Option ℕ :=
  (afterDot s.data).map List.length

/-- The list of segments `formatNotification` pushes into `parts`, in
push order, straight from the source. -/
def formatParts (elapsedSeconds : ℚ) (usage : Usage) (options : Options) :
    List String :=
  let outTps := usage.output / max elapsedSeconds (1 / 1000000000)
  let parts := ["TPS " ++ toFixed options.precision outTps ++ " tok/s",
                "out " ++ fmtInt usage.output,
                "in " ++ fmtInt usage.input]
  let parts := parts ++
    (if options.showCache then
      ["cache r/w " ++ fmtInt usage.cacheRead ++ "/" ++ fmtInt usage.cacheWrite] ++
        (let denom := usage.input + usage.cacheRead
         if denom > 0 then
           let hitRate := usage.cacheRead / denom
           ["cache% " ++ toFixed 0 (hitRate * 100) ++ "%"]
         else [])
     else [])
  let parts := parts ++
    (if options.showTotals then
      ["total " ++ fmtInt usage.totalTokens] ++
        (let ratio := if usage.input > 0 then usage.output / usage.input else 0
         if usage.input > 0 then ["o/i " ++ toFixed 2 ratio] else [])
     else [])
  parts ++ [toFixed options.precision elapsedSeconds ++ "s"]

/-- `formatNotification` from the source: the segments joined with the
literal `", "`. -/
def formatNotification (elapsedSeconds : ℚ) (usage : Usage)
    (options : Options) : String :=
  String.intercalate ", " (formatParts elapsedSeconds usage options)

/-- The segment list as the spec states it (§4.2): the exact order
throughput, output, input, [cache r/w, [cache%]], [total, [o/i]],
elapsed-seconds, with the cache-hit-rate segment present iff `showCache`
and `input + cacheRead > 0`, and the ratio segment present iff
`showTotals` and `input > 0`.  Written from the spec's words, to be
compared with `formatParts` (which follows the source's pushes). -/
def specSegments (elapsedSeconds : ℚ) (u : Usage) (o : Options) :
    List String :=
  ["TPS " ++ toFixed o.precision (u.output / max elapsedSeconds (1 / 1000000000)) ++ " tok/s",
   "out " ++ fmtInt u.output,
   "in " ++ fmtInt u.input] ++
  (if o.showCache then
     ["cache r/w " ++ fmtInt u.cacheRead ++ "/" ++ fmtInt u.cacheWrite] ++
       (if u.input + u.cacheRead > 0 then
         ["cache% " ++ toFixed 0 (u.cacheRead / (u.input + u.cacheRead) * 100) ++ "%"]
        else [])
   else []) ++
  (if o.showTotals then
     ["total " ++ fmtInt u.totalTokens] ++
       (if u.input > 0 then ["o/i " ++ toFixed 2 (u.output / u.input)] else [])
   else []) ++
  [toFixed o.precision elapsedSeconds ++ "s"]

/-- The `agent_start` handler of `tpsExtension`: store the current
wall-clock instant (milliseconds), overwriting any previous one. -/
def handleAgentStart (now : ℤ) (_agentStartMs : Option ℤ) : Option ℤ :=
  some now

/-- Result of one `agent_end` callback: the new `agentStartMs` state and
the string passed to `ctx.ui.notify` (always with severity `"info"` in
the source), if any. -/
structure AgentEndResult where
  agentStartMs : Option ℤ
  notified : Option String
deriving DecidableEq

/-- The `agent_end` handler of `tpsExtension`, as explicit state passing
over `agentStartMs`.  Each early `return` of the source becomes a branch
yielding the state as it stands at that point; note that the `ctx.hasUI`
check precedes both the `agentStartMs === null` check and the
`agentStartMs = null` reset. -/
def handleAgentEnd (options : Options) (hasUI : Bool) (now : ℤ)
    (messages : List JSValue) (agentStartMs : Option ℤ) : AgentEndResult :=
  if !hasUI then ⟨agentStartMs, none⟩
  else
    match agentStartMs with
    | none => ⟨none, none⟩
    | some start =>
      let elapsedMs := now - start
      if elapsedMs ≤ 0 then ⟨none, none⟩
      else
        let elapsedSeconds : ℚ := (elapsedMs : ℚ) / 1000
        let usage := aggregateUsage messages
        if usage.output < options.minOutputTokensToNotify then ⟨none, none⟩
        else if elapsedSeconds < options.minSecondsToNotify then ⟨none, none⟩
        else ⟨none, some (formatNotification elapsedSeconds usage options)⟩

/-! ## Evaluation lemmas for the numeric renderers -/

theorem jsTrunc_eq_of_floor (q : ℚ) (z : ℤ) (h0 : ¬ q < 0) (h : ⌊q⌋ = z) :
    jsTrunc q = z := by
  unfold jsTrunc
  rw [if_neg h0, h]

theorem fmtInt_eval (q : ℚ) (z : ℤ) (h : jsTrunc q = z) :
    fmtInt q = (if z < 0 then "-" else "") ++
      String.mk ((groupLE 0 (natDigitsLE (z.natAbs + 1) z.natAbs)).reverse) := by
  unfold fmtInt
  rw [h]

theorem toFixed_eval_nonneg (f : ℕ) (x : ℚ) (n : ℕ) (h0 : ¬ x < 0)
    (hbig : x < (10 : ℚ) ^ 21)
    (h : ⌊x * (10 : ℚ) ^ f + 1 / 2⌋ = (n : ℤ)) :
    toFixed f x = String.mk (((toFixedDigits f n).drop f).reverse) ++
      (if f = 0 then "" else "." ++ String.mk (((toFixedDigits f n).take f).reverse)) := by
  unfold toFixed
  dsimp only
  rw [if_neg h0, if_neg h0, if_neg (not_le.mpr hbig), h, Int.toNat_natCast]
  simp

/-- C4: the two end-to-end formatting examples of the spec, character
for character. -/
theorem format_examples :
    formatNotification 5
        { input := 1000, output := 500, cacheRead := 200, cacheWrite := 50,
          totalTokens := 1750 }
        { minOutputTokensToNotify := 1, minSecondsToNotify := 0,
          precision := 1, showCache := true, showTotals := true } =
      "TPS 100.0 tok/s, out 500, in 1,000, cache r/w 200/50, cache% 17%, total 1,750, o/i 0.50, 5.0s" ∧
    formatNotification 2
        { input := 0, output := 0, cacheRead := 0, cacheWrite := 0,
          totalTokens := 0 } DEFAULTS =
      "TPS 0.0 tok/s, out 0, in 0, cache r/w 0/0, total 0, 2.0s" := by
  constructor
  · have hmax : max (5 : ℚ) (1 / 1000000000) = 5 := max_eq_left (by norm_num)
    unfold formatNotification formatParts
    dsimp only
    rw [hmax]
    norm_num
    rw [toFixed_eval_nonneg 1 100 1000 (by norm_num) (by norm_num) (by rw [Int.floor_eq_iff]; norm_num),
        toFixed_eval_nonneg 0 (50 / 3) 17 (by norm_num) (by norm_num) (by rw [Int.floor_eq_iff]; norm_num),
        toFixed_eval_nonneg 2 (1 / 2) 50 (by norm_num) (by norm_num) (by rw [Int.floor_eq_iff]; norm_num),
        toFixed_eval_nonneg 1 5 50 (by norm_num) (by norm_num) (by rw [Int.floor_eq_iff]; norm_num),
        fmtInt_eval 500 500 (jsTrunc_eq_of_floor _ _ (by norm_num) (by rw [Int.floor_eq_iff]; norm_num)),
        fmtInt_eval 1000 1000 (jsTrunc_eq_of_floor _ _ (by norm_num) (by rw [Int.floor_eq_iff]; norm_num)),
        fmtInt_eval 200 200 (jsTrunc_eq_of_floor _ _ (by norm_num) (by rw [Int.floor_eq_iff]; norm_num)),
        fmtInt_eval 50 50 (jsTrunc_eq_of_floor _ _ (by norm_num) (by rw [Int.floor_eq_iff]; norm_num)),
        fmtInt_eval 1750 1750 (jsTrunc_eq_of_floor _ _ (by norm_num) (by rw [Int.floor_eq_iff]; norm_num))]
    decide
  · have hmax : max (2 : ℚ) (1 / 1000000000) = 2 := max_eq_left (by norm_num)
    unfold formatNotification formatParts DEFAULTS
    dsimp only
    rw [hmax]
    norm_num
    rw [toFixed_eval_nonneg 1 0 0 (by norm_num) (by norm_num) (by rw [Int.floor_eq_iff]; norm_num),
        toFixed_eval_nonneg 1 2 20 (by norm_num) (by norm_num) (by rw [Int.floor_eq_iff]; norm_num),
        fmtInt_eval 0 0 (jsTrunc_eq_of_floor _ _ (by norm_num) (by rw [Int.floor_eq_iff]; norm_num))]
    decide

/-- The source's push sequence produces exactly the spec's segment
list. -/
theorem formatParts_eq_specSegments (e : ℚ) (u : Usage) (o : Options) :
    formatParts e u o = specSegments e u o := by
  unfold formatParts specSegments
  dsimp only
  by_cases hi : u.input > 0 <;> simp [hi]

/-- C5: the formatted line is the spec's segment list joined by the
literal `", "` — fixed order throughput, output, input,
[cache r/w, [cache%]], [total, [o/i]], elapsed-seconds, with the
cache-hit-rate segment present iff `showCache` and
`input + cacheRead > 0` and the ratio segment present iff `showTotals`
and `input > 0` — and turning `showCache` (resp. `showTotals`) off
yields a sublist of the segments with it on, so toggling never reorders
the remaining segments. -/
theorem segment_structure (e : ℚ) (u : Usage) (o : Options) :
    formatNotification e u o = String.intercalate ", " (specSegments e u o) ∧
    (specSegments e u { o with showCache := false }).Sublist
      (specSegments e u { o with showCache := true }) ∧
    (specSegments e u { o with showTotals := false }).Sublist
      (specSegments e u { o with showTotals := true }) := by
  refine ⟨?_, ?_, ?_⟩
  · unfold formatNotification
    rw [formatParts_eq_specSegments]
  · unfold specSegments
    dsimp only
    refine List.Sublist.append (List.Sublist.append
      (List.Sublist.append (List.Sublist.refl _) ?_) (List.Sublist.refl _))
      (List.Sublist.refl _)
    simp
  · unfold specSegments
    dsimp only
    refine List.Sublist.append (List.Sublist.append
      (List.Sublist.append (List.Sublist.refl _) (List.Sublist.refl _)) ?_)
      (List.Sublist.refl _)
    simp

/-- No decimal digit character is a point. -/
theorem digitChar_ne_dot (d : ℕ) (h : d < 10) : Nat.digitChar d ≠ '.' := by
  revert h
  revert d
  decide

theorem natDigitsLE_ne_dot (fuel n : ℕ) : ∀ c ∈ natDigitsLE fuel n, c ≠ '.' := by
  induction fuel generalizing n with
  | zero => intro c hc; simp [natDigitsLE] at hc
  | succ fuel ih =>
    intro c hc
    unfold natDigitsLE at hc
    by_cases h : n < 10
    · rw [if_pos h] at hc
      simp at hc
      rw [hc]
      exact digitChar_ne_dot n h
    · rw [if_neg h] at hc
      rcases List.mem_cons.mp hc with h1 | h2
      · rw [h1]
        exact digitChar_ne_dot _ (Nat.mod_lt n (by omega))
      · exact ih (n / 10) c h2

theorem toFixedDigits_ne_dot (f n : ℕ) : ∀ c ∈ toFixedDigits f n, c ≠ '.' := by
  intro c hc
  unfold toFixedDigits at hc
  rcases List.mem_append.mp hc with h1 | h2
  · exact natDigitsLE_ne_dot _ _ c h1
  · rw [List.eq_of_mem_replicate h2]
    decide

theorem toFixedDigits_length (f n : ℕ) : f + 1 ≤ (toFixedDigits f n).length := by
  unfold toFixedDigits
  rw [List.length_append, List.length_replicate]
  omega

theorem afterDot_append (l₁ l₂ : List Char) (h : ∀ c ∈ l₁, c ≠ '.') :
    afterDot (l₁ ++ l₂) = afterDot l₂ := by
  induction l₁ with
  | nil => rfl
  | cons c cs ih =>
    have hstep : afterDot ((c :: cs) ++ l₂) = afterDot (cs ++ l₂) := by
      show (if c = '.' then some (cs ++ l₂) else afterDot (cs ++ l₂)) =
        afterDot (cs ++ l₂)
      rw [if_neg (h c (List.mem_cons_self c cs))]
    rw [hstep]
    exact ih (fun x hx => h x (List.mem_cons_of_mem c hx))

theorem fracDigitCount_concat (s₁ : String) (B : List Char)
    (h : ∀ c ∈ s₁.data, c ≠ '.') :
    fracDigitCount (s₁ ++ ("." ++ String.mk B)) = some B.length := by
  unfold fracDigitCount
  have hdata : (s₁ ++ ("." ++ String.mk B)).data = s₁.data ++ ('.' :: B) := rfl
  rw [hdata, afterDot_append _ _ h]
  rfl

/-- Below the `10^21` `ToString` fallback, `toFixed f` renders exactly
`f` digits after the decimal point (for `f > 0`). -/
theorem toFixed_fracDigitCount (f : ℕ) (x : ℚ) (hf : 0 < f)
    (hx : |x| < (10 : ℚ) ^ 21) :
    fracDigitCount (toFixed f x) = some f := by
  unfold toFixed
  dsimp only
  by_cases h0 : x < 0
  · rw [abs_of_neg h0] at hx
    rw [if_pos h0, if_pos h0, if_neg (not_le.mpr hx),
      if_neg (show ¬ f = 0 by omega), fracDigitCount_concat]
    · have := toFixedDigits_length f (⌊-x * (10 : ℚ) ^ f + 1 / 2⌋).toNat
      rw [List.length_reverse, List.length_take, min_eq_left (by omega)]
    · intro c hc
      rcases List.mem_append.mp hc with h1 | h2
      · simp at h1
        rw [h1]
        decide
      · exact toFixedDigits_ne_dot _ _ c
          (List.mem_of_mem_drop (List.mem_reverse.mp h2))
  · rw [abs_of_nonneg (not_lt.mp h0)] at hx
    rw [if_neg h0, if_neg h0, if_neg (not_le.mpr hx),
      if_neg (show ¬ f = 0 by omega), fracDigitCount_concat]
    · have := toFixedDigits_length f (⌊x * (10 : ℚ) ^ f + 1 / 2⌋).toNat
      rw [List.length_reverse, List.length_take, min_eq_left (by omega)]
    · intro c hc
      rcases List.mem_append.mp hc with h1 | h2
      · simp at h1
      · exact toFixedDigits_ne_dot _ _ c
          (List.mem_of_mem_drop (List.mem_reverse.mp h2))

/-- Counterexample to C7 as stated: with `usage.output = 10^22`,
`elapsedSeconds = 1` and the default `precision = 1 > 0`, the throughput
magnitude reaches `toFixed`'s ECMAScript `10^21` fallback, so the
throughput segment renders the exponential string `"1e+22"`, which has
no decimal point at all rather than exactly one decimal place. -/
theorem throughput_digits_counterexample :
    (formatParts 1
        { input := 0, output := 10 ^ 22, cacheRead := 0, cacheWrite := 0,
          totalTokens := 0 } DEFAULTS).head? =
      some ("TPS " ++ "1e+22" ++ " tok/s") ∧
    fracDigitCount "1e+22" = none ∧
    0 < DEFAULTS.precision := by
  refine ⟨?_, by decide, by decide⟩
  have harg : ((10 : ℚ) ^ 22) / max 1 (1 / 1000000000) = 10 ^ 22 := by
    rw [max_eq_left (by norm_num)]
    norm_num
  have hval : toFixed 1 ((10 : ℚ) ^ 22) = "1e+22" := by
    unfold toFixed
    dsimp only
    rw [if_neg (show ¬ (10 : ℚ) ^ 22 < 0 by norm_num),
      if_neg (show ¬ (10 : ℚ) ^ 22 < 0 by norm_num),
      if_pos (show (10 : ℚ) ^ 21 ≤ (10 : ℚ) ^ 22 by norm_num),
      show ⌊(10 : ℚ) ^ 22⌋ = ((10 ^ 22 : ℕ) : ℤ) by
        rw [Int.floor_eq_iff] <;> push_cast <;> norm_num,
      Int.toNat_natCast,
      show (10 ^ 22 : ℕ) = 10000000000000000000000 by norm_num]
    decide
  unfold formatParts DEFAULTS
  dsimp only
  rw [harg, hval]
  rfl

/-- C7 (amended): for positive elapsed time, the first segment is
`"TPS " ++ toFixed precision (output / max elapsedSeconds 1e-9) ++ " tok/s"`;
when the precision is positive and the throughput magnitude is below
`10^21` the number is rendered with exactly `precision` digits after the
decimal point (at `10^21` or above, ECMAScript `toFixed` falls back to
`ToString`, which renders exponential notation with no fixed fraction
— see the counterexample). -/
theorem throughput_segment (e : ℚ) (u : Usage) (o : Options) (he : 0 < e) :
    (formatParts e u o).head? =
      some ("TPS " ++ toFixed o.precision (u.output / max e (1 / 1000000000)) ++
        " tok/s") ∧
    (0 < o.precision →
      |u.output / max e (1 / 1000000000)| < (10 : ℚ) ^ 21 →
      fracDigitCount
        (toFixed o.precision (u.output / max e (1 / 1000000000))) =
        some o.precision) := by
  constructor
  · unfold formatParts
    dsimp only
    rfl
  · intro hp hx
    exact toFixed_fracDigitCount o.precision _ hp hx

/-- C9: formatting is deterministic — equal elapsed time, equal usage
counters and equal options give character-for-character identical
output. -/
theorem format_deterministic (e₁ e₂ : ℚ) (u₁ u₂ : Usage) (o₁ o₂ : Options)
    (he : e₁ = e₂) (hu : u₁ = u₂) (ho : o₁ = o₂) :
    formatNotification e₁ u₁ o₁ = formatNotification e₂ u₂ o₂ := by
  rw [he, hu, ho]

/-- Witness for C9 at a concrete input. -/
theorem format_deterministic_witness :
    formatNotification 2 usageZero DEFAULTS =
      formatNotification 2 usageZero DEFAULTS :=
  format_deterministic 2 2 usageZero usageZero DEFAULTS DEFAULTS rfl rfl rfl

/-- Witness for C7 at a concrete input. -/
theorem throughput_segment_witness :
    (0 : ℚ) < 5 ∧ 0 < DEFAULTS.precision ∧
    |usageZero.output / max 5 (1 / 1000000000)| < (10 : ℚ) ^ 21 ∧
    (formatParts 5 usageZero DEFAULTS).head? =
      some ("TPS " ++ toFixed DEFAULTS.precision
        (usageZero.output / max 5 (1 / 1000000000)) ++ " tok/s") ∧
    fracDigitCount
        (toFixed DEFAULTS.precision (usageZero.output / max 5 (1 / 1000000000))) =
      some DEFAULTS.precision :=
  ⟨by decide, by decide, by simp [usageZero],
   (throughput_segment 5 usageZero DEFAULTS (by decide)).1,
   (throughput_segment 5 usageZero DEFAULTS (by decide)).2 (by decide)
     (by simp [usageZero])⟩

/-! ## Algebra of the usage accumulator -/

theorem usageAdd_zero (a : Usage) : usageAdd a usageZero = a := by
  cases a; simp [usageAdd, usageZero]

theorem zero_usageAdd (a : Usage) : usageAdd usageZero a = a := by
  cases a; simp [usageAdd, usageZero]

theorem usageAdd_assoc (a b c : Usage) :
    usageAdd (usageAdd a b) c = usageAdd a (usageAdd b c) := by
  simp [usageAdd, add_assoc]

theorem usageAdd_comm (a b : Usage) : usageAdd a b = usageAdd b a := by
  simp [usageAdd, add_comm]

theorem aggregateStep_eq (acc : Usage) (m : JSValue) :
    aggregateStep acc m = usageAdd acc (usageContrib m) := by
  unfold aggregateStep usageContrib
  by_cases h1 : isAssistantMessage m
  · by_cases h2 : isRecord (jsGet m "usage") <;>
      simp [h1, h2, usageAdd, usageZero]
  · simp [h1, usageAdd_zero]

theorem foldl_aggregateStep (msgs : List JSValue) (acc : Usage) :
    msgs.foldl aggregateStep acc = usageAdd acc (aggregateUsage msgs) := by
  induction msgs generalizing acc with
  | nil => simp [aggregateUsage, usageAdd_zero]
  | cons m t ih =>
    show List.foldl aggregateStep (aggregateStep acc m) t = _
    rw [ih, aggregateStep_eq]
    have : aggregateUsage (m :: t) = usageAdd (usageContrib m) (aggregateUsage t) := by
      show List.foldl aggregateStep (aggregateStep usageZero m) t = _
      rw [ih, aggregateStep_eq, zero_usageAdd]
    rw [this, usageAdd_assoc]

theorem aggregateUsage_cons (m : JSValue) (t : List JSValue) :
    aggregateUsage (m :: t) = usageAdd (usageContrib m) (aggregateUsage t) := by
  show List.foldl aggregateStep (aggregateStep usageZero m) t = _
  rw [foldl_aggregateStep, aggregateStep_eq, zero_usageAdd]

/-- C3: aggregation is additive over concatenation, field-wise, and
invariant under permutation of the event sequence (over the exact
rationals of the embedding; float rounding is not modelled). -/
theorem aggregate_append_perm (A B : List JSValue) :
    aggregateUsage (A ++ B) = usageAdd (aggregateUsage A) (aggregateUsage B) ∧
    (A.Perm B → aggregateUsage A = aggregateUsage B) := by
  constructor
  · show (A ++ B).foldl aggregateStep usageZero = _
    rw [List.foldl_append, foldl_aggregateStep]
    rfl
  · intro hp
    induction hp with
    | nil => rfl
    | cons x _ ih => rw [aggregateUsage_cons, aggregateUsage_cons, ih]
    | swap x y l =>
      rw [aggregateUsage_cons, aggregateUsage_cons, aggregateUsage_cons,
        aggregateUsage_cons, ← usageAdd_assoc, ← usageAdd_assoc,
        usageAdd_comm (usageContrib y) (usageContrib x)]
    | trans _ _ ih1 ih2 => rw [ih1, ih2]

/-- Witness for C3 at concrete inputs (the permutation hypothesis is
discharged by an explicit swap). -/
theorem aggregate_append_perm_witness :
    aggregateUsage ([JSValue.null] ++ [JSValue.str "x"]) =
      usageAdd (aggregateUsage [JSValue.null]) (aggregateUsage [JSValue.str "x"]) ∧
    aggregateUsage [JSValue.null, JSValue.str "x"] =
      aggregateUsage [JSValue.str "x", JSValue.null] :=
  ⟨(aggregate_append_perm [JSValue.null] [JSValue.str "x"]).1,
   (aggregate_append_perm [JSValue.null, JSValue.str "x"]
      [JSValue.str "x", JSValue.null]).2
     (List.Perm.swap (JSValue.str "x") JSValue.null [])⟩

/-- Counterexample to C2 as stated: a well-formed assistant event whose
`usage.input` is the finite number `-1` passes `readNumber` unchanged,
so the aggregated `input` field is negative. -/
theorem aggregate_nonneg_counterexample :
    (aggregateUsage [JSValue.record [("role", JSValue.str "assistant"),
        ("usage", JSValue.record [("input", JSValue.num (JSNum.finite (-1)))])]]).input
      < 0 := by
  rw [aggregateUsage_cons]
  simp [usageContrib, isAssistantMessage, isRecord, jsGet, lookupField,
    readNumber, usageAdd, usageZero, aggregateUsage]

theorem usageContrib_nonneg (m : JSValue)
    (h : 0 ≤ readNumber (jsGet (jsGet m "usage") "input") ∧
         0 ≤ readNumber (jsGet (jsGet m "usage") "output") ∧
         0 ≤ readNumber (jsGet (jsGet m "usage") "cacheRead") ∧
         0 ≤ readNumber (jsGet (jsGet m "usage") "cacheWrite") ∧
         0 ≤ readNumber (jsGet (jsGet m "usage") "totalTokens")) :
    0 ≤ (usageContrib m).input ∧ 0 ≤ (usageContrib m).output ∧
    0 ≤ (usageContrib m).cacheRead ∧ 0 ≤ (usageContrib m).cacheWrite ∧
    0 ≤ (usageContrib m).totalTokens := by
  unfold usageContrib
  by_cases h1 : isAssistantMessage m
  · by_cases h2 : isRecord (jsGet m "usage") <;>
      simp [h1, h2, usageZero, h.1, h.2.1, h.2.2.1, h.2.2.2.1, h.2.2.2.2]
  · simp [h1, usageZero]

/-- C2 (amended): `aggregateUsage` is total (it is a Lean function) and
returns five finite rationals; the five fields are non-negative whenever
no event carries a negative finite numeric usage field (the unamended
unconditional non-negativity fails, see the counterexample: `readNumber`
passes negative finite numbers through). -/
theorem aggregate_nonneg_amended (msgs : List JSValue)
    (h : ∀ m ∈ msgs,
      0 ≤ readNumber (jsGet (jsGet m "usage") "input") ∧
      0 ≤ readNumber (jsGet (jsGet m "usage") "output") ∧
      0 ≤ readNumber (jsGet (jsGet m "usage") "cacheRead") ∧
      0 ≤ readNumber (jsGet (jsGet m "usage") "cacheWrite") ∧
      0 ≤ readNumber (jsGet (jsGet m "usage") "totalTokens")) :
    0 ≤ (aggregateUsage msgs).input ∧ 0 ≤ (aggregateUsage msgs).output ∧
    0 ≤ (aggregateUsage msgs).cacheRead ∧
    0 ≤ (aggregateUsage msgs).cacheWrite ∧
    0 ≤ (aggregateUsage msgs).totalTokens := by
  induction msgs with
  | nil => simp [aggregateUsage, usageZero]
  | cons m t ih =>
    have hm := usageContrib_nonneg m (h m (List.mem_cons_self m t))
    have ht := ih (fun x hx => h x (List.mem_cons_of_mem m hx))
    rw [aggregateUsage_cons]
    unfold usageAdd
    exact ⟨add_nonneg hm.1 ht.1, add_nonneg hm.2.1 ht.2.1,
      add_nonneg hm.2.2.1 ht.2.2.1, add_nonneg hm.2.2.2.1 ht.2.2.2.1,
      add_nonneg hm.2.2.2.2 ht.2.2.2.2⟩

/-- Witness for C2 (amended) at a concrete input. -/
theorem aggregate_nonneg_amended_witness :
    (∀ m ∈ [JSValue.null],
      0 ≤ readNumber (jsGet (jsGet m "usage") "input") ∧
      0 ≤ readNumber (jsGet (jsGet m "usage") "output") ∧
      0 ≤ readNumber (jsGet (jsGet m "usage") "cacheRead") ∧
      0 ≤ readNumber (jsGet (jsGet m "usage") "cacheWrite") ∧
      0 ≤ readNumber (jsGet (jsGet m "usage") "totalTokens")) ∧
    0 ≤ (aggregateUsage [JSValue.null]).input :=
  ⟨by decide, (aggregate_nonneg_amended [JSValue.null] (by decide)).1⟩

/-- C6: an event changes the accumulator iff it is a record with role
`"assistant"` (and then contributes the defensively-read five fields,
each `0` when missing, non-numeric or non-finite); all other events
contribute exactly zero, and two malformed events aggregate to the
all-zero counters. -/
theorem assistant_filter (m : JSValue) (msgs : List JSValue) :
    (isAssistantMessage m = false →
      aggregateUsage (m :: msgs) = aggregateUsage msgs) ∧
    (isAssistantMessage m = true → isRecord (jsGet m "usage") = true →
      aggregateUsage (m :: msgs) = usageAdd
        { input := readNumber (jsGet (jsGet m "usage") "input")
          output := readNumber (jsGet (jsGet m "usage") "output")
          cacheRead := readNumber (jsGet (jsGet m "usage") "cacheRead")
          cacheWrite := readNumber (jsGet (jsGet m "usage") "cacheWrite")
          totalTokens := readNumber (jsGet (jsGet m "usage") "totalTokens") }
        (aggregateUsage msgs)) ∧
    (isAssistantMessage m = true → isRecord (jsGet m "usage") = false →
      aggregateUsage (m :: msgs) = aggregateUsage msgs) ∧
    readNumber (JSValue.num JSNum.nan) = 0 ∧
    readNumber (JSValue.num JSNum.posInf) = 0 ∧
    readNumber (JSValue.num JSNum.negInf) = 0 ∧
    readNumber JSValue.undefined = 0 ∧
    readNumber (JSValue.str "7") = 0 ∧
    aggregateUsage [JSValue.str "oops", JSValue.null] = usageZero := by
  refine ⟨?_, ?_, ?_, rfl, rfl, rfl, rfl, rfl, by decide⟩
  · intro h1
    rw [aggregateUsage_cons]
    unfold usageContrib
    rw [h1]
    simp [zero_usageAdd]
  · intro h1 h2
    rw [aggregateUsage_cons]
    unfold usageContrib
    simp [h1, h2]
  · intro h1 h2
    rw [aggregateUsage_cons]
    unfold usageContrib
    simp [h1, h2, zero_usageAdd]

/-- Witness for C6 at a concrete input. -/
theorem assistant_filter_witness :
    isAssistantMessage JSValue.null = false ∧
    aggregateUsage [JSValue.null] = aggregateUsage [] :=
  ⟨by decide, (assistant_filter JSValue.null []).1 (by decide)⟩

/-! ## Run-tracker claims -/

/-- Counterexample to C1 as stated: when the delivery context has no
active destination (`hasUI = false`), the `agent_end` handler returns
before clearing `agentStartMs`, so the start instant is retained, not
cleared. -/
theorem start_retained_counterexample :
    (handleAgentEnd DEFAULTS false 100 [] (some 5)).agentStartMs ≠ none := by
  decide

/-- C1 (amended): on a run-end handled while a run is in progress the
start instant is cleared whenever the delivery context has an active
destination — even when a gate suppresses the notification — but it is
retained when there is no active destination. -/
theorem start_cleared_amended (o : Options) (now start : ℤ)
    (msgs : List JSValue) :
    (handleAgentEnd o true now msgs (some start)).agentStartMs = none ∧
    (handleAgentEnd o false now msgs (some start)).agentStartMs = some start := by
  constructor
  · unfold handleAgentEnd
    simp only [Bool.not_true, Bool.false_eq_true, if_false]
    repeat (first | rfl | split)
  · rfl

/-- C10: with an active destination and a start instant set, the
handler resets the start instant to `none` before any gate is
evaluated (so every outcome leaves the tracker `Idle`), and an
immediately following second run-end emits nothing. -/
theorem idle_after_suppressed_end (o : Options) (now start now₂ : ℤ)
    (msgs msgs₂ : List JSValue) :
    (handleAgentEnd o true now msgs (some start)).agentStartMs = none ∧
    (handleAgentEnd o true now₂ msgs₂
      (handleAgentEnd o true now msgs (some start)).agentStartMs).notified = none := by
  have h : (handleAgentEnd o true now msgs (some start)).agentStartMs = none := by
    unfold handleAgentEnd
    simp only [Bool.not_true, Bool.false_eq_true, if_false]
    repeat (first | rfl | split)
  exact ⟨h, by rw [h]; rfl⟩

/-- C8: the notification sink is called iff every gate passes — active
destination, a start instant set, strictly positive elapsed time, the
aggregated output at least `minOutputTokensToNotify`, and the elapsed
seconds at least `minSecondsToNotify`; a run whose output is `5` against
a threshold of `10` is suppressed regardless of the other inputs, and a
run-end with no prior run-start emits nothing (and, being a total Lean
function, does not raise). -/
theorem notify_gates (o : Options) (hasUI : Bool) (now : ℤ)
    (msgs : List JSValue) (s : Option ℤ) :
    ((handleAgentEnd o hasUI now msgs s).notified.isSome ↔
      hasUI = true ∧ ∃ start, s = some start ∧ 0 < now - start ∧
        o.minOutputTokensToNotify ≤ (aggregateUsage msgs).output ∧
        o.minSecondsToNotify ≤ ((now - start : ℤ) : ℚ) / 1000) ∧
    ((aggregateUsage msgs).output = 5 → o.minOutputTokensToNotify = 10 →
      (handleAgentEnd o hasUI now msgs s).notified = none) ∧
    (handleAgentEnd o hasUI now msgs none).notified = none := by
  refine ⟨?_, ?_, ?_⟩
  · cases hasUI with
    | false => simp [handleAgentEnd]
    | true =>
      cases s with
      | none => simp [handleAgentEnd]
      | some t =>
        unfold handleAgentEnd
        simp only [Bool.not_true, Bool.false_eq_true, if_false]
        push_cast
        by_cases h1 : now - t ≤ 0
        · rw [if_pos h1]
          simp [show ¬ t < now from by omega]
        · rw [if_neg h1]
          by_cases h2 : (aggregateUsage msgs).output < o.minOutputTokensToNotify
          · rw [if_pos h2]
            simp [not_le.mpr h2]
          · rw [if_neg h2]
            by_cases h3 : ((now : ℚ) - (t : ℚ)) / 1000 < o.minSecondsToNotify
            · rw [if_pos h3]
              simp [not_le.mpr h3]
            · rw [if_neg h3]
              rw [not_lt] at h2 h3
              simp [h2, h3, show t < now from by omega]
  · intro h5 h10
    cases hasUI with
    | false => rfl
    | true =>
      cases s with
      | none => rfl
      | some t =>
        unfold handleAgentEnd
        simp only [Bool.not_true, Bool.false_eq_true, if_false]
        split
        · rfl
        · rw [h5, h10, if_pos (by norm_num)]
  · cases hasUI <;> rfl

/-- Witness for C8 at a concrete input: output 5 against threshold 10
is suppressed. -/
theorem notify_gates_witness :
    (aggregateUsage [JSValue.record [("role", JSValue.str "assistant"),
        ("usage", JSValue.record [("output", JSValue.num (JSNum.finite 5))])]]).output = 5 ∧
    (handleAgentEnd
        { minOutputTokensToNotify := 10, minSecondsToNotify := 0,
          precision := 1, showCache := true, showTotals := true }
        true 1000
        [JSValue.record [("role", JSValue.str "assistant"),
          ("usage", JSValue.record [("output", JSValue.num (JSNum.finite 5))])]]
        (some 0)).notified = none :=
  ⟨by simp [aggregateUsage, aggregateStep, isAssistantMessage, isRecord,
      jsGet, lookupField, readNumber, usageZero],
   (notify_gates
      { minOutputTokensToNotify := 10, minSecondsToNotify := 0,
        precision := 1, showCache := true, showTotals := true }
      true 1000
      [JSValue.record [("role", JSValue.str "assistant"),
        ("usage", JSValue.record [("output", JSValue.num (JSNum.finite 5))])]]
      (some 0)).2.1
     (by simp [aggregateUsage, aggregateStep, isAssistantMessage, isRecord,
        jsGet, lookupField, readNumber, usageZero]) rfl⟩

end TpsExt
